import Mathlib

/-!
Shallow embedding of the event admission / deduplication pipeline of
nostr2discord, and proofs of its specified properties.

The repository contains several structurally similar variants of the same
pipeline; each is embedded separately under a suffix naming its source file:
  * `...P0`    : the webhook variant in `src/unnamed/part_000`
  * `...P7`    : the webhook variant in `src/unnamed/part_007`
  * `...Sched` : `src/functions/scheduled-poller.js`
  * `...Poll`  : `src/unnamed/part_001` (the simple poller)
  * `handleNostrEvent` : `src/functions/webhook.js`
  * `sendToDiscordIndex`, `insertSorted` : `src/index.js`

Conventions of the embedding:
  * The cryptographic oracles from `nostr-tools` (`getEventHash(e) == e.id`,
    `verifySignature(e)`, `validateEvent(e)`) are opaque; each event carries
    their verdicts as boolean fields (`hashValid`, `sigValid`, `structValid`).
  * A JS `Set` of event ids is modelled as a duplicate-free insertion-ordered
    `List String`, head = oldest insertion (the element produced by
    `set.values().next().value`).
  * Times are integers, in the unit the code uses at that spot
    (`created_at` in unix seconds, `Date.now()` values in milliseconds).
  * Network calls are replaced by explicit parameters carrying the response
    the remote side would give (`SinkResponse`, `responseOk`, ...).
-/

namespace Nostr2Discord

/-- A Nostr event as received by the pipeline.  `hashValid`, `sigValid` and
`structValid` carry the verdicts of the external `nostr-tools` oracles
`getEventHash(e) == e.id`, `verifySignature(e)` and `validateEvent(e)`. -/
structure NEvent where
  id : String
  pubkey : String
  created_at : Int
  kind : Int
  content : String
  hashValid : Bool
  sigValid : Bool
  structValid : Bool
  deriving DecidableEq

/-- `set.add(id)` on a JS `Set`: a no-op when the id is already present,
otherwise appended at the end of the insertion order. -/
def setAdd (l : List String) (id : String) : List String :=
  if id ∈ l then l else l ++ [id]

/-- A ledger insert as it appears at every insertion site of the repository:
`processedEvents.add(id)` followed by
`if (processedEvents.size > cap) processedEvents.delete(processedEvents.values().next().value)`.
The deleted element is the head, i.e. the oldest-inserted id. -/
def ledgerInsert (cap : Nat) (l : List String) (id : String) : List String :=
  if (setAdd l id).length > cap then (setAdd l id).tail else setAdd l id

/-- Module state of `src/unnamed/part_007`: the `config.processedEvents` set
and `config.lastProcessedTimestamp` (milliseconds). -/
structure P7State where
  processedEvents : List String
  lastProcessedTimestamp : Int
  deriving DecidableEq

/-- `markEventProcessed` of `src/unnamed/part_007` lines 54-63: add the id,
stamp `lastProcessedTimestamp = Date.now()`, evict the oldest id past
capacity 200. -/
def markEventProcessed (st : P7State) (eventId : String) (nowMs : Int) : P7State :=
  { processedEvents := ledgerInsert 200 st.processedEvents eventId,
    lastProcessedTimestamp := nowMs }

/-- Which branch of an `isEventProcessed` variant fired. -/
inductive CheckOutcome
  | memDuplicate
  | invalidHash
  | tooOld
  | prevInstanceDup
  | likelyDuplicate
  | notProcessed
  deriving DecidableEq

/-- `isEventProcessed` of `src/unnamed/part_007` lines 16-51, in source order:
memory-cache membership, then the `getEventHash` integrity check, then the
one-hour staleness check, then the five-minute pre-`lastProcessedTimestamp`
duplicate heuristic (which calls `markEventProcessed`).  Returns the branch
that fired together with the possibly updated state. -/
def isEventProcessedP7 (st : P7State) (e : NEvent) (nowMs : Int) :
    CheckOutcome × P7State :=
  if e.id ∈ st.processedEvents then (.memDuplicate, st)
  else if !e.hashValid then (.invalidHash, st)
  else
    let eventTime := e.created_at * 1000
    if nowMs - eventTime > 3600000 then (.tooOld, st)
    else if eventTime < st.lastProcessedTimestamp ∧
            st.lastProcessedTimestamp - eventTime < 300000 then
      (.prevInstanceDup, markEventProcessed st e.id nowMs)
    else (.notProcessed, st)

/-- `isEventProcessed` of `src/unnamed/part_000` lines 122-148: memory-cache
membership, `getEventHash` integrity check, one-hour staleness check.  No
state is mutated on any branch. -/
def isEventProcessedP0 (processed : List String) (e : NEvent) (nowMs : Int) : Bool :=
  if e.id ∈ processed then true
  else if !e.hashValid then true
  else if nowMs - e.created_at * 1000 > 3600000 then true
  else false

/-- Module state of `src/functions/scheduled-poller.js`: `cache.lastSeen`
(unix seconds), `cache.processedEvents`, `cache.lastRunTimestamp`
(milliseconds). -/
structure PollerCache where
  lastSeen : Int
  processedEvents : List String
  lastRunTimestamp : Int
  deriving DecidableEq

/-- `isEventProcessed` of `src/functions/scheduled-poller.js` lines 270-300:
memory-cache membership, `getEventHash` integrity check, then the
likely-duplicate heuristic
`eventTime < lastRun - 5min && eventTime > cache.lastSeen*1000 - 60000`
(times in milliseconds), which adds the id to `cache.processedEvents`. -/
def isEventProcessedSched (c : PollerCache) (e : NEvent) :
    CheckOutcome × PollerCache :=
  if e.id ∈ c.processedEvents then (.memDuplicate, c)
  else if !e.hashValid then (.invalidHash, c)
  else if 0 < c.lastRunTimestamp ∧
          e.created_at * 1000 < c.lastRunTimestamp - 300000 ∧
          e.created_at * 1000 > c.lastSeen * 1000 - 60000 then
    (.likelyDuplicate, { c with processedEvents := setAdd c.processedEvents e.id })
  else (.notProcessed, c)

/-- Result of one POST to `src/functions/webhook.js`'s `handleNostrEvent`:
HTTP status code, the status/error label of the JSON body, the number of
deliveries attempted to the Discord webhook, and the resulting
`processedEvents` ledger. -/
structure WebhookOutcome where
  statusCode : Nat
  status : String
  delivered : Nat
  ledger : List String
  deriving DecidableEq

/-- `handleNostrEvent` of `src/functions/webhook.js` lines 88-206, in source
order: dedup-ledger membership, `validateEvent && verifySignature`, the
`kind !== 1` skip, the webhook-URL configuration check, then one delivery to
Discord; on a 2xx Discord response the id is inserted with capacity 100.
`webhookConfigured` stands for `DISCORD_WEBHOOK_URL` being set and
`discordOk` for `response.ok` of the Discord call. -/
def handleNostrEvent (ledger : List String) (e : NEvent)
    (webhookConfigured : Bool) (discordOk : Bool) : WebhookOutcome :=
  if e.id ∈ ledger then ⟨200, "already_processed", 0, ledger⟩
  else if !(e.structValid && e.sigValid) then
    ⟨400, "invalid_event_signature_or_structure", 0, ledger⟩
  else if e.kind ≠ 1 then ⟨200, "ignored_non_text_event", 0, ledger⟩
  else if !webhookConfigured then ⟨500, "no_webhook_url", 0, ledger⟩
  else if !discordOk then ⟨500, "discord_api_error", 1, ledger⟩
  else ⟨200, "forwarded_to_discord", 1, ledgerInsert 100 ledger e.id⟩

/-- `sendToDiscord` of `src/index.js` lines 682-717: skip when the id is in
`processedEvents`, otherwise one fetch to the webhook; on `response.ok`
insert the id with capacity 1000.  Returns (deliveries attempted, new
ledger). -/
def sendToDiscordIndex (ledger : List String) (e : NEvent) (responseOk : Bool) :
    Nat × List String :=
  if e.id ∈ ledger then (0, ledger)
  else if responseOk then (1, ledgerInsert 1000 ledger e.id)
  else (1, ledger)

/-- The response of the Discord webhook to one POST, as observed by the code:
`ok`, `status`, and the parsed `retry-after` header (`none` when absent). -/
structure SinkResponse where
  ok : Bool
  status : Nat
  retryAfterHeader : Option Nat
  deriving DecidableEq

/-- The object `sendToDiscord` resolves with, restricted to the fields the
callers inspect. -/
structure SendResult where
  success : Bool
  retryAfter : Option Nat
  deriving DecidableEq

/-- The response handling of `sendToDiscord` in
`src/functions/scheduled-poller.js` lines 148-219: missing webhook URL fails;
`response.ok` succeeds; HTTP 429 fails with
`retryAfter = parseInt(headers.get('retry-after') || '5')`; any other status
fails with no retry hint. -/
def sendToDiscordSched (webhookConfigured : Bool) (resp : SinkResponse) : SendResult :=
  if !webhookConfigured then ⟨false, none⟩
  else if resp.ok then ⟨true, none⟩
  else if resp.status == 429 then ⟨false, some (resp.retryAfterHeader.getD 5)⟩
  else ⟨false, none⟩

/-- `sendToDiscord` of `src/unnamed/part_007` lines 228-290: first
`isEventProcessed` (returning `already_processed` with no delivery), then the
webhook-URL check, then one fetch; on `response.ok` the id is recorded via
`markEventProcessed`, on 429 the retry hint
`parseInt(headers.get('retry-after') || '5')` is surfaced.  Returns
(result, new state, deliveries attempted). -/
def sendToDiscordP7 (st : P7State) (e : NEvent) (nowMs : Int)
    (webhookConfigured : Bool) (resp : SinkResponse) :
    SendResult × P7State × Nat :=
  match isEventProcessedP7 st e nowMs with
  | (CheckOutcome.notProcessed, st1) =>
    if !webhookConfigured then (⟨false, none⟩, st1, 0)
    else if resp.ok then (⟨true, none⟩, markEventProcessed st1 e.id nowMs, 1)
    else if resp.status == 429 then
      (⟨false, some (resp.retryAfterHeader.getD 5)⟩, st1, 1)
    else (⟨false, none⟩, st1, 1)
  | (_, st1) => (⟨true, none⟩, st1, 0)

/-- Loop state of the `for (const event of sortedEvents)` loop of
`pollForEvents`: the `processedEvents` ledger, the `results` array
(id, sent?), the ids for which a `sendToDiscord` call was issued, and the
loop-local `newLastSeen`. -/
structure PollState where
  processedEvents : List String
  results : List (String × Bool)
  attempts : List String
  newLastSeen : Int
  deriving DecidableEq

/-- One iteration of the event loop of `pollForEvents` in
`src/unnamed/part_001` lines 211-245: advance `newLastSeen`, skip ledger
duplicates, skip events failing `validateEvent || verifySignature`, else one
`sendToDiscord` call (its success given by `ev.2`); on success insert the id
with capacity 100. -/
def pollStep (st : PollState) (ev : NEvent × Bool) : PollState :=
  let e := ev.1
  let nls := if e.created_at > st.newLastSeen then e.created_at else st.newLastSeen
  let st1 := { st with newLastSeen := nls }
  if e.id ∈ st1.processedEvents then st1
  else if !(e.structValid && e.sigValid) then st1
  else
    let st2 := { st1 with attempts := st1.attempts ++ [e.id] }
    if ev.2 then
      { st2 with processedEvents := ledgerInsert 100 st2.processedEvents e.id,
                 results := st2.results ++ [(e.id, true)] }
    else { st2 with results := st2.results ++ [(e.id, false)] }

/-- One iteration of the event loop of `pollForEvents` in
`src/functions/scheduled-poller.js` lines 409-484 (with the webhook
connectivity pre-test assumed to pass): identical control flow, but the sink
outcome is the full `sendToDiscord` result and the ledger capacity is 200. -/
def pollStepSched (st : PollState) (ev : NEvent × SinkResponse) : PollState :=
  let e := ev.1
  let nls := if e.created_at > st.newLastSeen then e.created_at else st.newLastSeen
  let st1 := { st with newLastSeen := nls }
  if e.id ∈ st1.processedEvents then st1
  else if !(e.structValid && e.sigValid) then st1
  else
    let r := sendToDiscordSched true ev.2
    let st2 := { st1 with attempts := st1.attempts ++ [e.id] }
    if r.success then
      { st2 with processedEvents := ledgerInsert 200 st2.processedEvents e.id,
                 results := st2.results ++ [(e.id, true)] }
    else { st2 with results := st2.results ++ [(e.id, false)] }

/-- Insert `e` after every element whose key is `≤ key e`.  Folding this over
a list realizes a stable ascending sort: equal-key elements keep their
arrival order, which is the behaviour of `Array.prototype.sort` (a stable
sort per the ECMAScript specification) under the comparator
`(a, b) => a.created_at - b.created_at`. -/
def insertByKey {α : Type} (key : α → Int) (e : α) : List α → List α
  | [] => [e]
  | x :: xs => if key x ≤ key e then x :: insertByKey key e xs else e :: x :: xs

/-- Stable ascending sort by an integer key; models
`events.sort((a, b) => a.created_at - b.created_at)`. -/
def stableSortByKey {α : Type} (key : α → Int) (l : List α) : List α :=
  l.foldl (fun acc e => insertByKey key e acc) []

/-- The fallback merge of `pollForEvents` in
`src/functions/scheduled-poller.js` lines 391-395: push every fallback event
whose id is not already in `events`. -/
def dedupPush (events : List NEvent) (fallback : List NEvent) : List NEvent :=
  fallback.foldl
    (fun acc e => if acc.any (fun x => x.id == e.id) then acc else acc ++ [e])
    events

/-- The fan-in merge of `pollForEvents` in
`src/functions/scheduled-poller.js` lines 375-407: the fallback batch is
consulted only when the primary batch is empty, and only the fallback push is
deduplicated by id; the result is sorted by `created_at` with JS's stable
sort. -/
def mergeAndSort (primary fallback : List NEvent) : List NEvent :=
  let events := if primary.length == 0 then dedupPush primary fallback else primary
  stableSortByKey (fun e => e.created_at) events

/-- `pollForEvents` of `src/unnamed/part_001` lines 185-248, reduced to the
state it threads: `since` seeding (`lastSeen` when positive, else
`now - lookbackSeconds`), stable sort of the batch by `created_at`, then the
per-event loop.  The final `cache.lastSeen` is the `newLastSeen` field of the
result. -/
def pollRun (lastSeen now lookback : Int) (pe : List String)
    (evs : List (NEvent × Bool)) : PollState :=
  let since := if lastSeen > 0 then lastSeen else now - lookback
  (stableSortByKey (fun ev => ev.1.created_at) evs).foldl pollStep
    ⟨pe, [], [], since⟩

/-- The `position` local of `insertSorted`:
`findIndex(e => compare(event, e) < 0)`, with the `-1` (not found) case
mapped to `length` — which is exactly `List.findIdx`. -/
def insertPos (sortedArray : List NEvent) (event : NEvent)
    (compare : NEvent → NEvent → Int) : Nat :=
  sortedArray.findIdx (fun e => decide (compare event e < 0))

/-- `insertSorted` of `src/index.js` lines 777-794 (same text in
`src/unnamed/part_006` lines 243-259): find the first position whose element
compares greater than `event` (`insertPos` above); if the element at that
position exists and has the same id, return the array unchanged; otherwise
rebuild the array with `event` spliced in at that position. -/
def insertSorted (sortedArray : List NEvent) (event : NEvent)
    (compare : NEvent → NEvent → Int) : List NEvent :=
  match sortedArray[insertPos sortedArray event compare]? with
  | some atPos =>
    if atPos.id = event.id then sortedArray
    else sortedArray.take (insertPos sortedArray event compare)
      ++ event :: sortedArray.drop (insertPos sortedArray event compare)
  | none => sortedArray.take (insertPos sortedArray event compare)
      ++ event :: sortedArray.drop (insertPos sortedArray event compare)

/-! ## C7: events older than the one-hour stale window are always rejected -/

/-- C7: for every event whose `created_at` is more than 3600 seconds older
than now, the admission check treats it as already processed (it is never
forwarded): `isEventProcessed` returns `true` in `src/unnamed/part_000`, and
the `part_007` variant never reaches its `notProcessed` branch; moreover when
the event is hash-valid and not in the ledger the firing branch is exactly
the too-old check. -/
theorem c7_too_old_rejected (pe : List String) (st : P7State) (e : NEvent)
    (nowS : Int) (h : 3600 < nowS - e.created_at) :
    isEventProcessedP0 pe e (nowS * 1000) = true ∧
    (isEventProcessedP7 st e (nowS * 1000)).1 ≠ CheckOutcome.notProcessed ∧
    (e.hashValid = true → e.id ∉ st.processedEvents →
      (isEventProcessedP7 st e (nowS * 1000)).1 = CheckOutcome.tooOld) := by
  have hage : nowS * 1000 - e.created_at * 1000 > 3600000 := by omega
  refine ⟨?_, ?_, ?_⟩
  · by_cases hc : e.id ∈ pe
    · simp [isEventProcessedP0, hc]
    · cases hv : e.hashValid
      · simp [isEventProcessedP0, hc, hv]
      · simp [isEventProcessedP0, hc, hv, hage]
  · by_cases hc : e.id ∈ st.processedEvents
    · simp [isEventProcessedP7, hc]
    · cases hv : e.hashValid
      · simp [isEventProcessedP7, hc, hv]
      · simp [isEventProcessedP7, hc, hv, hage]
  · intro hv hc
    simp [isEventProcessedP7, hc, hv, hage]

/-- C7 witness: an event 7200 seconds old (`created_at = now - 7200` with
`now = 1000000`) is rejected as too old on both embedded variants. -/
theorem c7_witness :
    isEventProcessedP0 [] ⟨"a", "p", 992800, 1, "c", true, true, true⟩ 1000000000 = true ∧
    (isEventProcessedP7 ⟨[], 0⟩ ⟨"a", "p", 992800, 1, "c", true, true, true⟩ 1000000000).1
      = CheckOutcome.tooOld := by
  have h := c7_too_old_rejected [] ⟨[], 0⟩
      ⟨"a", "p", 992800, 1, "c", true, true, true⟩ 1000000 (by norm_num)
  exact ⟨h.1, h.2.2 rfl (by simp)⟩

/-! ## C10: structurally valid non-text events are acknowledged and dropped -/

/-- C10: a POST of a correctly signed, structurally valid event with
`kind ≠ 1` whose id is not in the ledger gets HTTP 200 with status
`ignored_non_text_event`, zero Discord deliveries, and an unchanged
`processedEvents` ledger. -/
theorem c10_non_text_ignored (l : List String) (e : NEvent) (wc dOk : Bool)
    (h1 : e.structValid = true) (h2 : e.sigValid = true) (h3 : e.kind ≠ 1)
    (h4 : e.id ∉ l) :
    handleNostrEvent l e wc dOk = ⟨200, "ignored_non_text_event", 0, l⟩ := by
  simp [handleNostrEvent, h1, h2, h3, h4]

/-- C10 witness: a concrete kind-0 event on an empty ledger. -/
theorem c10_witness :
    handleNostrEvent [] ⟨"a", "p", 100, 0, "c", true, true, true⟩ true true
      = ⟨200, "ignored_non_text_event", 0, []⟩ :=
  c10_non_text_ignored [] ⟨"a", "p", 100, 0, "c", true, true, true⟩ true true
    rfl rfl (by decide) (by simp)

/-! ## C2: an id already in the ledger never gets a second sink delivery -/

/-- C2: for an event whose id is already in the `processedEvents` ledger,
re-processing triggers zero deliveries to the Discord webhook on every
ingestion path: the subscription path (`sendToDiscord` of `src/index.js`),
the HTTP POST paths (`handleNostrEvent` of `src/functions/webhook.js` and
`sendToDiscord` of `src/unnamed/part_007`), and the poll-batch loop
(`pollForEvents` of `src/unnamed/part_001`, whose attempt list is
unchanged). -/
theorem c2_ledger_idempotent (e : NEvent) (l : List String) (ts nowMs nls : Int)
    (res : List (String × Bool)) (att : List String)
    (wc dOk sinkOk respOk : Bool) (resp : SinkResponse)
    (h : e.id ∈ l) :
    (sendToDiscordIndex l e respOk).1 = 0 ∧
    (handleNostrEvent l e wc dOk).delivered = 0 ∧
    (sendToDiscordP7 ⟨l, ts⟩ e nowMs wc resp).2.2 = 0 ∧
    (pollStep ⟨l, res, att, nls⟩ (e, sinkOk)).attempts = att := by
  refine ⟨?_, ?_, ?_, ?_⟩
  · simp [sendToDiscordIndex, h]
  · simp [handleNostrEvent, h]
  · simp [sendToDiscordP7, isEventProcessedP7, h]
  · simp [pollStep, h]

/-- C2 witness: a concrete event whose id `"a"` is already in the ledger is
delivered zero further times on all four embedded paths. -/
theorem c2_witness :
    (sendToDiscordIndex ["a"] ⟨"a", "p", 5, 1, "c", true, true, true⟩ true).1 = 0 ∧
    (handleNostrEvent ["a"] ⟨"a", "p", 5, 1, "c", true, true, true⟩ true true).delivered = 0 ∧
    (sendToDiscordP7 ⟨["a"], 0⟩ ⟨"a", "p", 5, 1, "c", true, true, true⟩ 0 true
      ⟨true, 200, none⟩).2.2 = 0 ∧
    (pollStep ⟨["a"], [], [], 0⟩ (⟨"a", "p", 5, 1, "c", true, true, true⟩, true)).attempts
      = [] :=
  c2_ledger_idempotent ⟨"a", "p", 5, 1, "c", true, true, true⟩ ["a"] 0 0 0 [] []
    true true true true ⟨true, 200, none⟩ (by simp)

/-! ## C8: HTTP 429 from the sink -/

/-- C8: when Discord answers 429, `sendToDiscord` of the scheduled poller
returns failure with `retryAfter` parsed from the `retry-after` header
(5 when the header is absent); the loop records the event as failed, issues
exactly one delivery attempt for it (no in-batch retry), and does not insert
its id into the dedup ledger. -/
theorem c8_rate_limited (st : PollState) (e : NEvent) (resp : SinkResponse)
    (h1 : resp.ok = false) (h2 : resp.status = 429)
    (h3 : e.id ∉ st.processedEvents)
    (h4 : e.structValid = true) (h5 : e.sigValid = true) :
    sendToDiscordSched true resp = ⟨false, some (resp.retryAfterHeader.getD 5)⟩ ∧
    (pollStepSched st (e, resp)).processedEvents = st.processedEvents ∧
    (pollStepSched st (e, resp)).attempts = st.attempts ++ [e.id] ∧
    (pollStepSched st (e, resp)).results = st.results ++ [(e.id, false)] := by
  have hr : sendToDiscordSched true resp = ⟨false, some (resp.retryAfterHeader.getD 5)⟩ := by
    simp [sendToDiscordSched, h1, h2]
  refine ⟨hr, ?_, ?_, ?_⟩ <;>
    simp [pollStepSched, hr, h3, h4, h5]

/-- C8 witness: a 429 response with no `retry-after` header yields
`retryAfter = 5`, one attempt, a failed result, and an unchanged ledger. -/
theorem c8_witness :
    sendToDiscordSched true ⟨false, 429, none⟩ = ⟨false, some 5⟩ ∧
    (pollStepSched ⟨[], [], [], 0⟩
      (⟨"a", "p", 5, 1, "c", true, true, true⟩, ⟨false, 429, none⟩)).processedEvents = [] ∧
    (pollStepSched ⟨[], [], [], 0⟩
      (⟨"a", "p", 5, 1, "c", true, true, true⟩, ⟨false, 429, none⟩)).attempts = ["a"] ∧
    (pollStepSched ⟨[], [], [], 0⟩
      (⟨"a", "p", 5, 1, "c", true, true, true⟩, ⟨false, 429, none⟩)).results = [("a", false)] := by
  have h := c8_rate_limited ⟨[], [], [], 0⟩ ⟨"a", "p", 5, 1, "c", true, true, true⟩
    ⟨false, 429, none⟩ rfl rfl (by simp) rfl rfl
  exact ⟨h.1, h.2.1, by simpa using h.2.2.1, by simpa using h.2.2.2⟩

/-! ## C1: validation versus the dedup check -/

/-- C1 counterexample: the claim says a forged (invalid-hash) event is
rejected **before** any dedup-ledger check runs.  In
`isEventProcessed` of `src/unnamed/part_007` the ledger membership check is
the first check: an invalid-hash event whose id is already in the ledger is
classified by the dedup check (`memDuplicate`), not by the hash check, so
validation does not run first. -/
theorem c1_counterexample :
    (isEventProcessedP7 ⟨["a"], 0⟩ ⟨"a", "p", 100, 1, "c", false, true, true⟩ 0).1
      = CheckOutcome.memDuplicate ∧
    (isEventProcessedP7 ⟨["a"], 0⟩ ⟨"a", "p", 100, 1, "c", false, true, true⟩ 0).1
      ≠ CheckOutcome.invalidHash := by
  decide

/-- C1 amended: an invalid-hash event is always rejected and its id is never
inserted into the dedup ledger (the state is returned unchanged), but the
ledger membership check runs **before** validation: the hash check is the
deciding branch only when the id is not already in the ledger.  The same
holds for the `part_000` variant. -/
theorem c1_amended (st : P7State) (pe : List String) (e : NEvent) (nowMs : Int)
    (h : e.hashValid = false) :
    (isEventProcessedP7 st e nowMs).1 ≠ CheckOutcome.notProcessed ∧
    (isEventProcessedP7 st e nowMs).2 = st ∧
    (e.id ∉ st.processedEvents →
      (isEventProcessedP7 st e nowMs).1 = CheckOutcome.invalidHash) ∧
    isEventProcessedP0 pe e nowMs = true := by
  by_cases hc : e.id ∈ st.processedEvents
  · refine ⟨?_, ?_, ?_, ?_⟩
    · simp [isEventProcessedP7, hc]
    · simp [isEventProcessedP7, hc]
    · intro hcf; exact absurd hc hcf
    · by_cases hcp : e.id ∈ pe <;> simp [isEventProcessedP0, hcp, h]
  · refine ⟨?_, ?_, ?_, ?_⟩
    · simp [isEventProcessedP7, hc, h]
    · simp [isEventProcessedP7, hc, h]
    · intro _; simp [isEventProcessedP7, hc, h]
    · by_cases hcp : e.id ∈ pe <;> simp [isEventProcessedP0, hcp, h]

/-- C1 amended witness: a concrete invalid-hash event on an empty ledger is
rejected with the hash reason and the ledger stays empty. -/
theorem c1_amended_witness :
    (isEventProcessedP7 ⟨[], 0⟩ ⟨"a", "p", 100, 1, "c", false, true, true⟩ 0).1
      = CheckOutcome.invalidHash ∧
    (isEventProcessedP7 ⟨[], 0⟩ ⟨"a", "p", 100, 1, "c", false, true, true⟩ 0).2
      = ⟨[], 0⟩ ∧
    isEventProcessedP0 [] ⟨"a", "p", 100, 1, "c", false, true, true⟩ 0 = true := by
  have h := c1_amended ⟨[], 0⟩ [] ⟨"a", "p", 100, 1, "c", false, true, true⟩ 0 rfl
  exact ⟨h.2.2.1 (by simp), h.2.1, h.2.2.2⟩

/-! ## C5: the likely-duplicate pre-cursor window -/

/-- C5 counterexample: the claim's window (`lastSeen > 0`,
`createdAt < lastSeen - 300`, `createdAt > lastSeen - 3600`) predicts
rejection for `lastSeen = 10000`, `createdAt = 9000`.  On the code
(`isEventProcessed` of `src/functions/scheduled-poller.js`, here with
`lastRunTimestamp = 20000000` ms) that event falls outside the implemented
window (`eventTime > lastSeen*1000 - 60000` fails) and is **admitted**. -/
theorem c5_counterexample :
    ((0 : Int) < 10000 ∧ (9000 : Int) < 10000 - 300 ∧ (9000 : Int) > 10000 - 3600) ∧
    (isEventProcessedSched ⟨10000, [], 20000000⟩
      ⟨"a", "p", 9000, 1, "c", true, true, true⟩).1 = CheckOutcome.notProcessed := by
  decide

/-- C5 amended: for a hash-valid event not already in the ledger, the
scheduled poller flags it as a likely pre-cursor duplicate **iff**
`lastRunTimestamp > 0` and the event time in milliseconds is more than
300000 ms older than the last-run wall-clock timestamp and newer than
`lastSeen*1000 - 60000` (a 60-second grace behind the cursor, not the
spec's `lastSeen - 300` / `lastSeen - 3600` bounds); in that case the id is
appended to the ledger without a further membership check. -/
theorem c5_amended (c : PollerCache) (e : NEvent)
    (h1 : e.hashValid = true) (h2 : e.id ∉ c.processedEvents) :
    ((isEventProcessedSched c e).1 = CheckOutcome.likelyDuplicate ↔
      (0 < c.lastRunTimestamp ∧
       e.created_at * 1000 < c.lastRunTimestamp - 300000 ∧
       e.created_at * 1000 > c.lastSeen * 1000 - 60000)) ∧
    ((isEventProcessedSched c e).1 = CheckOutcome.likelyDuplicate →
      (isEventProcessedSched c e).2.processedEvents = c.processedEvents ++ [e.id]) := by
  by_cases hw : (0 < c.lastRunTimestamp ∧
      e.created_at * 1000 < c.lastRunTimestamp - 300000 ∧
      e.created_at * 1000 > c.lastSeen * 1000 - 60000)
  · constructor
    · simp [isEventProcessedSched, h1, h2, hw]
    · intro _
      simp [isEventProcessedSched, h1, h2, hw, setAdd]
  · constructor
    · simp [isEventProcessedSched, h1, h2, hw]
    · intro hcontra
      exfalso
      revert hcontra
      simp [isEventProcessedSched, h1, h2, hw]

/-- C5 amended witness: `lastSeen = 10000` s, `lastRunTimestamp = 20000000`
ms, `created_at = 10000` s: the implemented window fires and the id is
appended to the ledger. -/
theorem c5_amended_witness :
    (isEventProcessedSched ⟨10000, [], 20000000⟩
      ⟨"a", "p", 10000, 1, "c", true, true, true⟩).1 = CheckOutcome.likelyDuplicate ∧
    (isEventProcessedSched ⟨10000, [], 20000000⟩
      ⟨"a", "p", 10000, 1, "c", true, true, true⟩).2.processedEvents = ["a"] := by
  have h := c5_amended ⟨10000, [], 20000000⟩ ⟨"a", "p", 10000, 1, "c", true, true, true⟩
    rfl (by simp)
  have hout := h.1.mpr (by norm_num)
  exact ⟨hout, by simpa using h.2 hout⟩

/-! ## C4: bounded capacity and strict FIFO eviction of the dedup ledger -/

/-- A single ledger insert never leaves the ledger above its capacity. -/
theorem ledgerInsert_length_le (cap : Nat) (l : List String) (id : String)
    (h : l.length ≤ cap) : (ledgerInsert cap l id).length ≤ cap := by
  have hsa : (setAdd l id).length ≤ l.length + 1 := by
    unfold setAdd
    split
    · omega
    · simp
  unfold ledgerInsert
  split
  · rename_i hgt
    simp only [List.length_tail]
    omega
  · rename_i hng
    omega

/-- Inserting distinct fresh ids while there is room appends them in FIFO
order with no eviction. -/
theorem ledgerInsert_fill (cap : Nat) :
    ∀ (ids l : List String), (l ++ ids).Nodup → l.length + ids.length ≤ cap →
      ids.foldl (ledgerInsert cap) l = l ++ ids := by
  intro ids
  induction ids with
  | nil => intro l _ _; simp
  | cons a ids ih =>
    intro l hnd hlen
    have hsplit := List.nodup_append.mp hnd
    have ha : a ∉ l := fun hmem =>
      (hsplit.2.2 hmem (List.mem_cons_self a ids)).elim
    have hlen0 : l.length + (ids.length + 1) ≤ cap := by
      simpa using hlen
    have hsa : setAdd l a = l ++ [a] := by
      unfold setAdd; exact if_neg ha
    have hlen1 : ¬ (l ++ [a]).length > cap := by
      simp only [List.length_append, List.length_singleton]
      omega
    have hstep : ledgerInsert cap l a = l ++ [a] := by
      unfold ledgerInsert
      rw [hsa, if_neg hlen1]
    have hnd2 : ((l ++ [a]) ++ ids).Nodup := by
      have heq : (l ++ [a]) ++ ids = l ++ a :: ids := by simp
      rw [heq]; exact hnd
    have hlen2 : (l ++ [a]).length + ids.length ≤ cap := by
      simp only [List.length_append, List.length_singleton]
      omega
    rw [List.foldl_cons, hstep, ih (l ++ [a]) hnd2 hlen2]
    simp

/-- C4: the ledger never exceeds its capacity after an insert completes, and
inserting `cap + 1` distinct ids into an empty ledger leaves exactly the
`cap` most recent ids: the final ledger equals `ids.tail`, so exactly the
single first-inserted id was evicted (strict FIFO, independent of
timestamps). -/
theorem c4_capacity_fifo (cap : Nat) (l : List String) (id : String)
    (ids : List String)
    (hlen : l.length ≤ cap) (hnd : ids.Nodup) (hcount : ids.length = cap + 1) :
    (ledgerInsert cap l id).length ≤ cap ∧
    ids.foldl (ledgerInsert cap) [] = ids.tail ∧
    (ids.foldl (ledgerInsert cap) []).length = cap ∧
    (∀ x, ids.head? = some x → x ∉ ids.foldl (ledgerInsert cap) []) := by
  have hne : ids ≠ [] := by intro hnil; rw [hnil] at hcount; simp at hcount
  have hdecomp : ids.dropLast ++ [ids.getLast hne] = ids := List.dropLast_append_getLast hne
  have hfront_len : ids.dropLast.length = cap := by
    have := List.length_dropLast ids
    omega
  have hfront_nodup : (ids.dropLast ++ [ids.getLast hne]).Nodup := by
    rw [hdecomp]; exact hnd
  have hfill : ids.dropLast.foldl (ledgerInsert cap) [] = ids.dropLast := by
    have := ledgerInsert_fill cap ids.dropLast []
    simp only [List.nil_append, List.length_nil, Nat.zero_add] at this
    exact this (List.Nodup.sublist (List.dropLast_sublist ids) hnd) (by omega)
  have hlast_notin : ids.getLast hne ∉ ids.dropLast := by
    have := List.nodup_append.mp hfront_nodup
    intro hmem
    exact (this.2.2 hmem (List.mem_singleton_self _)).elim
  have hsa : setAdd ids.dropLast (ids.getLast hne)
      = ids.dropLast ++ [ids.getLast hne] := by
    unfold setAdd; exact if_neg hlast_notin
  have hmain : ids.foldl (ledgerInsert cap) [] = ids.tail := by
    conv_lhs => rw [← hdecomp]
    rw [List.foldl_append, hfill]
    simp only [List.foldl_cons, List.foldl_nil]
    unfold ledgerInsert
    rw [hsa, if_pos]
    · rw [hdecomp]
    · simp only [List.length_append, List.length_singleton]
      omega
  refine ⟨ledgerInsert_length_le cap l id hlen, hmain, ?_, ?_⟩
  · rw [hmain]
    have := List.length_tail ids
    omega
  · intro x hx
    rw [hmain]
    rcases ids with _ | ⟨h0, t⟩
    · cases hx
    · simp only [List.head?_cons, Option.some_inj] at hx
      subst hx
      have := (List.nodup_cons.mp hnd).1
      simpa using this

/-- C4 witness: with capacity 3, inserting `a, b, c, d` leaves exactly
`[b, c, d]`: size 3, `a` (the first-inserted) evicted. -/
theorem c4_witness :
    (ledgerInsert 3 ["x"] "y").length ≤ 3 ∧
    ["a", "b", "c", "d"].foldl (ledgerInsert 3) [] = ["b", "c", "d"] ∧
    (["a", "b", "c", "d"].foldl (ledgerInsert 3) []).length = 3 ∧
    "a" ∉ ["a", "b", "c", "d"].foldl (ledgerInsert 3) [] := by
  have h := c4_capacity_fifo 3 ["x"] "y" ["a", "b", "c", "d"]
    (by simp) (by simp) (by simp)
  exact ⟨h.1, h.2.1, h.2.2.1, h.2.2.2 "a" rfl⟩

/-! ## Helper lemmas about the stable sort -/

theorem insertByKey_perm {α : Type} (key : α → Int) (e : α) (l : List α) :
    List.Perm (insertByKey key e l) (e :: l) := by
  induction l with
  | nil => exact List.Perm.refl _
  | cons x xs ih =>
    unfold insertByKey
    split
    · exact List.Perm.trans (ih.cons x) (List.Perm.swap e x xs)
    · exact List.Perm.refl _

theorem foldl_insertByKey_perm {α : Type} (key : α → Int) :
    ∀ (l acc : List α),
      List.Perm (l.foldl (fun acc e => insertByKey key e acc) acc) (acc ++ l) := by
  intro l
  induction l with
  | nil => intro acc; simp
  | cons a l ih =>
    intro acc
    refine List.Perm.trans (ih (insertByKey key a acc)) ?_
    refine List.Perm.trans ((insertByKey_perm key a acc).append_right l) ?_
    exact List.perm_middle.symm

theorem stableSortByKey_perm {α : Type} (key : α → Int) (l : List α) :
    List.Perm (stableSortByKey key l) l := by
  simpa [stableSortByKey] using foldl_insertByKey_perm key l []

theorem insertByKey_sorted {α : Type} (key : α → Int) (e : α) (l : List α)
    (h : l.Pairwise (fun a b => key a ≤ key b)) :
    (insertByKey key e l).Pairwise (fun a b => key a ≤ key b) := by
  induction l with
  | nil => simp [insertByKey]
  | cons x xs ih =>
    rcases List.pairwise_cons.mp h with ⟨hx, hxs⟩
    unfold insertByKey
    split
    · rename_i hxe
      refine List.pairwise_cons.mpr ⟨?_, ih hxs⟩
      intro b hb
      have hb2 : b ∈ e :: xs := ((insertByKey_perm key e xs).mem_iff).mp hb
      rcases List.mem_cons.mp hb2 with hbe | hbxs
      · rw [hbe]; exact hxe
      · exact hx b hbxs
    · rename_i hxe
      refine List.pairwise_cons.mpr ⟨?_, h⟩
      intro b hb
      rcases List.mem_cons.mp hb with hbx | hbxs
      · rw [hbx]; omega
      · exact le_trans (by omega) (hx b hbxs)

theorem stableSortByKey_sorted {α : Type} (key : α → Int) (l : List α) :
    (stableSortByKey key l).Pairwise (fun a b => key a ≤ key b) := by
  have hgen : ∀ (l acc : List α),
      acc.Pairwise (fun a b => key a ≤ key b) →
      (l.foldl (fun acc e => insertByKey key e acc) acc).Pairwise
        (fun a b => key a ≤ key b) := by
    intro l
    induction l with
    | nil => intro acc h; exact h
    | cons a l ih =>
      intro acc h
      exact ih _ (insertByKey_sorted key a acc h)
  exact hgen l [] (by simp)

/-! ## C3: the progress cursor never regresses and covers the batch -/

theorem pollStep_newLastSeen_le (st : PollState) (ev : NEvent × Bool) :
    st.newLastSeen ≤ (pollStep st ev).newLastSeen := by
  unfold pollStep
  by_cases h1 : ev.1.created_at > st.newLastSeen <;>
    by_cases h2 : ev.1.id ∈ st.processedEvents <;>
      by_cases h3 : (!(ev.1.structValid && ev.1.sigValid)) = true <;>
        cases h4 : ev.2 <;>
          simp [h1, h2, h3, h4] <;> omega

theorem pollStep_created_le (st : PollState) (ev : NEvent × Bool) :
    ev.1.created_at ≤ (pollStep st ev).newLastSeen := by
  unfold pollStep
  by_cases h1 : ev.1.created_at > st.newLastSeen <;>
    by_cases h2 : ev.1.id ∈ st.processedEvents <;>
      by_cases h3 : (!(ev.1.structValid && ev.1.sigValid)) = true <;>
        cases h4 : ev.2 <;>
          simp [h1, h2, h3, h4] <;> omega

theorem foldl_pollStep_newLastSeen_le (evs : List (NEvent × Bool)) (st : PollState) :
    st.newLastSeen ≤ (evs.foldl pollStep st).newLastSeen := by
  induction evs generalizing st with
  | nil => simp
  | cons a evs ih =>
    rw [List.foldl_cons]
    exact le_trans (pollStep_newLastSeen_le st a) (ih _)

theorem foldl_pollStep_created_le (evs : List (NEvent × Bool))
    (ev : NEvent × Bool) (h : ev ∈ evs) : ∀ st : PollState,
    ev.1.created_at ≤ (evs.foldl pollStep st).newLastSeen := by
  induction evs with
  | nil => cases h
  | cons a evs ih =>
    intro st
    rw [List.foldl_cons]
    rcases List.mem_cons.mp h with rfl | hmem
    · exact le_trans (pollStep_created_le st ev) (foldl_pollStep_newLastSeen_le evs _)
    · exact ih hmem _

/-- C3: after `pollForEvents` finishes a batch, `cache.lastSeen` is at least
its previous value and at least every event timestamp of the batch, no
matter which events were skipped as duplicates, rejected as invalid, or
failed sink delivery.  The hypotheses state the standing invariants
`0 ≤ lastSeen` (cursor starts at 0) and `lookbackSeconds ≤ now`. -/
theorem c3_cursor_advances (lastSeen now lookback : Int) (pe : List String)
    (evs : List (NEvent × Bool))
    (h0 : 0 ≤ lastSeen) (h1 : lookback ≤ now) :
    lastSeen ≤ (pollRun lastSeen now lookback pe evs).newLastSeen ∧
    ∀ ev ∈ evs,
      ev.1.created_at ≤ (pollRun lastSeen now lookback pe evs).newLastSeen := by
  unfold pollRun
  constructor
  · have hsince : lastSeen ≤ (if lastSeen > 0 then lastSeen else now - lookback) := by
      split <;> omega
    exact le_trans hsince (foldl_pollStep_newLastSeen_le _ _)
  · intro ev hm
    have hm2 : ev ∈ stableSortByKey (fun ev => ev.1.created_at) evs :=
      ((stableSortByKey_perm (fun ev => ev.1.created_at) evs).mem_iff).mpr hm
    exact foldl_pollStep_created_le _ ev hm2 _

/-- C3 witness: a batch with timestamps 40 and 50 (the event at 50 failing
delivery, the one at 40 a duplicate) still advances the cursor from 30 to
50. -/
theorem c3_witness :
    (30 : Int) ≤ (pollRun 30 1000 100 ["a"]
      [(⟨"a", "p", 40, 1, "c", true, true, true⟩, true),
       (⟨"b", "p", 50, 1, "c", true, true, true⟩, false)]).newLastSeen ∧
    (50 : Int) ≤ (pollRun 30 1000 100 ["a"]
      [(⟨"a", "p", 40, 1, "c", true, true, true⟩, true),
       (⟨"b", "p", 50, 1, "c", true, true, true⟩, false)]).newLastSeen := by
  have h := c3_cursor_advances 30 1000 100 ["a"]
    [(⟨"a", "p", 40, 1, "c", true, true, true⟩, true),
     (⟨"b", "p", 50, 1, "c", true, true, true⟩, false)]
    (by norm_num) (by norm_num)
  exact ⟨h.1, h.2 (⟨"b", "p", 50, 1, "c", true, true, true⟩, false) (by simp)⟩

/-! ## C6: the fan-in merge -/

theorem dedupPush_nodup_ids (fallback : List NEvent) :
    ∀ acc : List NEvent, (acc.map NEvent.id).Nodup →
      ((dedupPush acc fallback).map NEvent.id).Nodup := by
  induction fallback with
  | nil => intro acc h; simpa [dedupPush] using h
  | cons a fb ih =>
    intro acc h
    unfold dedupPush
    rw [List.foldl_cons]
    by_cases hc : acc.any (fun x => x.id == a.id) = true
    · rw [if_pos hc]
      exact ih acc h
    · rw [if_neg hc]
      apply ih
      have hnotin : a.id ∉ acc.map NEvent.id := by
        simp only [List.any_eq_true, beq_iff_eq] at hc
        intro hmem
        rcases List.mem_map.mp hmem with ⟨x, hx, hxid⟩
        exact hc ⟨x, hx, hxid⟩
      rw [List.map_append]
      simp [List.nodup_append, h, hnotin]

/-- C6 counterexample: the merged sequence is **not** deduplicated by id nor
tie-broken by lexicographic id.  A primary batch `[x(t10), x(t10)]` with
fallback `[y(t5)]` merges to `[x(t10), x(t10)]` — two copies of `x` and no
`y` (the fallback is consulted only when the primary batch is empty, and the
primary batch itself is never deduplicated) — and a primary batch
`[b(t10), a(t10)]` keeps arrival order on the tie instead of sorting `a`
before `b`. -/
theorem c6_counterexample :
    mergeAndSort
      [⟨"x", "p", 10, 1, "c", true, true, true⟩,
       ⟨"x", "p", 10, 1, "c", true, true, true⟩]
      [⟨"y", "p", 5, 1, "c", true, true, true⟩]
      = [⟨"x", "p", 10, 1, "c", true, true, true⟩,
         ⟨"x", "p", 10, 1, "c", true, true, true⟩] ∧
    ¬ ((mergeAndSort
      [⟨"x", "p", 10, 1, "c", true, true, true⟩,
       ⟨"x", "p", 10, 1, "c", true, true, true⟩]
      [⟨"y", "p", 5, 1, "c", true, true, true⟩]).map NEvent.id).Nodup ∧
    mergeAndSort
      [⟨"b", "p", 10, 1, "c", true, true, true⟩,
       ⟨"a", "p", 10, 1, "c", true, true, true⟩] []
      = [⟨"b", "p", 10, 1, "c", true, true, true⟩,
         ⟨"a", "p", 10, 1, "c", true, true, true⟩] := by
  refine ⟨by decide, by decide, by decide⟩

/-- C6 amended: the merged sequence fed to the per-event pipeline is sorted
ascending by `createdAt` with ties kept in arrival order (JS stable sort),
and it is deduplicated by id only when the primary batch was empty (only the
fallback push checks ids); a non-empty primary batch is passed through
as-is. -/
theorem c6_merge_sorted_stable (primary fallback : List NEvent) :
    (mergeAndSort primary fallback).Pairwise
      (fun a b => a.created_at ≤ b.created_at) ∧
    (primary = [] → ((mergeAndSort primary fallback).map NEvent.id).Nodup) := by
  constructor
  · exact stableSortByKey_sorted _ _
  · intro hp
    subst hp
    have hmerge : mergeAndSort [] fallback
        = stableSortByKey (fun e => e.created_at) (dedupPush [] fallback) := by
      simp [mergeAndSort]
    rw [hmerge]
    have hperm :=
      (stableSortByKey_perm (fun e => e.created_at) (dedupPush [] fallback)).map NEvent.id
    exact hperm.nodup_iff.mpr (dedupPush_nodup_ids fallback [] (by simp))

/-- C6 amended witness: an empty primary batch with fallback
`[x(t10), y(t5), x(t10)]` merges to a sorted, id-deduplicated sequence. -/
theorem c6_merge_witness :
    (mergeAndSort [] [⟨"x", "p", 10, 1, "c", true, true, true⟩,
                      ⟨"y", "p", 5, 1, "c", true, true, true⟩,
                      ⟨"x", "p", 10, 1, "c", true, true, true⟩]).Pairwise
      (fun a b => a.created_at ≤ b.created_at) ∧
    ((mergeAndSort [] [⟨"x", "p", 10, 1, "c", true, true, true⟩,
                       ⟨"y", "p", 5, 1, "c", true, true, true⟩,
                       ⟨"x", "p", 10, 1, "c", true, true, true⟩]).map NEvent.id).Nodup := by
  have h := c6_merge_sorted_stable []
    [⟨"x", "p", 10, 1, "c", true, true, true⟩,
     ⟨"y", "p", 5, 1, "c", true, true, true⟩,
     ⟨"x", "p", 10, 1, "c", true, true, true⟩]
  exact ⟨h.1, h.2 rfl⟩

/-! ## C9: characterization of insertSorted -/

theorem findIdx_take_false {α : Type} (p : α → Bool) :
    ∀ (l : List α) (x : α), x ∈ l.take (l.findIdx p) → p x = false := by
  intro l
  induction l with
  | nil => intro x hx; simp at hx
  | cons a l ih =>
    intro x hx
    by_cases hpa : p a = true
    · have h0 : (a :: l).findIdx p = 0 := by simp [List.findIdx_cons, hpa]
      rw [h0] at hx
      simp at hx
    · have hfa : (a :: l).findIdx p = l.findIdx p + 1 := by
        simp [List.findIdx_cons, hpa]
      rw [hfa, List.take_succ_cons] at hx
      rcases List.mem_cons.mp hx with rfl | hmem
      · exact Bool.eq_false_iff.mpr hpa
      · exact ih x hmem

theorem findIdx_getElem_true {α : Type} (p : α → Bool) :
    ∀ (l : List α) (x : α), l[l.findIdx p]? = some x → p x = true := by
  intro l
  induction l with
  | nil => intro x hx; simp at hx
  | cons a l ih =>
    intro x hx
    by_cases hpa : p a = true
    · have h0 : (a :: l).findIdx p = 0 := by simp [List.findIdx_cons, hpa]
      rw [h0] at hx
      simp only [List.getElem?_cons_zero, Option.some_inj] at hx
      rw [← hx]
      exact hpa
    · have hfa : (a :: l).findIdx p = l.findIdx p + 1 := by
        simp [List.findIdx_cons, hpa]
      rw [hfa] at hx
      simp only [List.getElem?_cons_succ] at hx
      exact ih x hx

/-- The splice `take pos ++ event :: drop pos` at the `insertSorted` position
is sorted, provided `compare` is a lawful comparator (sign-antisymmetric and
transitive) and the input was sorted. -/
theorem insertSorted_splice_sorted (arr : List NEvent) (event : NEvent)
    (compare : NEvent → NEvent → Int)
    (hsign : ∀ a b, compare a b < 0 ↔ 0 < compare b a)
    (htrans : ∀ a b c, compare a b ≤ 0 → compare b c ≤ 0 → compare a c ≤ 0)
    (hsorted : arr.Pairwise fun a b => compare a b ≤ 0) :
    (arr.take (insertPos arr event compare)
      ++ event :: arr.drop (insertPos arr event compare)).Pairwise
      fun a b => compare a b ≤ 0 := by
  have hposeq : insertPos arr event compare
      = arr.findIdx (fun e => decide (compare event e < 0)) := rfl
  set pos := insertPos arr event compare with hpos
  have hsorted2 : (arr.take pos ++ arr.drop pos).Pairwise
      (fun a b => compare a b ≤ 0) := by
    rw [List.take_append_drop]; exact hsorted
  rcases List.pairwise_append.mp hsorted2 with ⟨hA, hB, hAB⟩
  have hER : ∀ y ∈ arr.drop pos, compare event y ≤ 0 := by
    intro y hy
    by_cases hlt : pos < arr.length
    · have hsome : arr[pos]? = some arr[pos] := List.getElem?_eq_getElem hlt
      have h0 : compare event arr[pos] < 0 := by
        have := findIdx_getElem_true (fun e => decide (compare event e < 0)) arr
          arr[pos] (by rw [← hposeq]; exact hsome)
        exact of_decide_eq_true this
    -- y is either the element at pos or an element after it
      have hdrop : arr.drop pos = arr[pos] :: arr.drop (pos + 1) :=
        List.drop_eq_getElem_cons hlt
      rw [hdrop] at hy
      rcases List.mem_cons.mp hy with rfl | hmem
      · omega
      · have hBpos : ∀ z ∈ arr.drop (pos + 1), compare arr[pos] z ≤ 0 := by
          have hB2 := hB
          rw [hdrop] at hB2
          exact (List.pairwise_cons.mp hB2).1
        exact htrans _ _ _ (by omega) (hBpos y hmem)
    · have hnil : arr.drop pos = [] := List.drop_eq_nil_of_le (by omega)
      rw [hnil] at hy
      cases hy
  have hTE : ∀ x ∈ arr.take pos, compare x event ≤ 0 := by
    intro x hx
    have hfalse : ¬ compare event x < 0 := by
      have := findIdx_take_false (fun e => decide (compare event e < 0)) arr x
        (by rw [← hposeq]; exact hx)
      exact of_decide_eq_false this
    have h2 := hsign x event
    by_cases hcx : compare x event < 0
    · omega
    · have hnpos : ¬ (0 < compare x event) := fun hp => hfalse ((hsign event x).mpr hp)
      omega
  refine List.pairwise_append.mpr ⟨hA, List.pairwise_cons.mpr ⟨hER, hB⟩, ?_⟩
  intro x hx y hy
  rcases List.mem_cons.mp hy with rfl | hmem
  · exact hTE x hx
  · exact hAB x hx y hmem

/-- C9: `insertSorted` is pure (its result is built from `take`/`drop` of the
input) and inserts `event` at the first position whose element compares
greater than `event`: every element before the position does not compare
greater, the element at the position (when it exists) does; when that very
element shares `event`'s id the input is returned unchanged, and otherwise —
even if an event with the same id sits at any other position — the result is
the input with `event` spliced in at the position, and it is sorted whenever
the input was sorted under a lawful comparator. -/
theorem c9_insertSorted_spec (arr : List NEvent) (event : NEvent)
    (compare : NEvent → NEvent → Int)
    (hsign : ∀ a b, compare a b < 0 ↔ 0 < compare b a)
    (htrans : ∀ a b c, compare a b ≤ 0 → compare b c ≤ 0 → compare a c ≤ 0)
    (hsorted : arr.Pairwise fun a b => compare a b ≤ 0) :
    (∀ x ∈ arr.take (insertPos arr event compare), ¬ compare event x < 0) ∧
    (∀ x, arr[insertPos arr event compare]? = some x → compare event x < 0) ∧
    (∀ x, arr[insertPos arr event compare]? = some x → x.id = event.id →
      insertSorted arr event compare = arr) ∧
    ((∀ x, arr[insertPos arr event compare]? = some x → x.id ≠ event.id) →
      insertSorted arr event compare
        = arr.take (insertPos arr event compare)
          ++ event :: arr.drop (insertPos arr event compare) ∧
      (insertSorted arr event compare).Pairwise fun a b => compare a b ≤ 0) := by
  refine ⟨?_, ?_, ?_, ?_⟩
  · intro x hx
    exact of_decide_eq_false
      (findIdx_take_false (fun e => decide (compare event e < 0)) arr x hx)
  · intro x hx
    exact of_decide_eq_true
      (findIdx_getElem_true (fun e => decide (compare event e < 0)) arr x hx)
  · intro x hx hid
    unfold insertSorted
    rw [hx]
    simp [hid]
  · intro hne
    have heq : insertSorted arr event compare
        = arr.take (insertPos arr event compare)
          ++ event :: arr.drop (insertPos arr event compare) := by
      unfold insertSorted
      cases hx : arr[insertPos arr event compare]? with
      | none => rfl
      | some x => simp [hne x hx]
    refine ⟨heq, ?_⟩
    rw [heq]
    exact insertSorted_splice_sorted arr event compare hsign htrans hsorted

/-- C9 witness: inserting a `created_at = 2` event into `[t1, t3]` under the
comparator `(a, b) => a.created_at - b.created_at` splices it in the middle;
a same-id event at a position other than the insertion position does not
block the insert. -/
theorem c9_witness :
    insertSorted
      [⟨"a", "p", 1, 1, "c", true, true, true⟩, ⟨"b", "p", 3, 1, "c", true, true, true⟩]
      ⟨"n", "p", 2, 1, "c", true, true, true⟩
      (fun a b => a.created_at - b.created_at)
      = [⟨"a", "p", 1, 1, "c", true, true, true⟩, ⟨"n", "p", 2, 1, "c", true, true, true⟩,
         ⟨"b", "p", 3, 1, "c", true, true, true⟩] ∧
    insertSorted
      [⟨"n", "p", 1, 1, "c", true, true, true⟩, ⟨"b", "p", 3, 1, "c", true, true, true⟩]
      ⟨"n", "p", 2, 1, "c", true, true, true⟩
      (fun a b => a.created_at - b.created_at)
      = [⟨"n", "p", 1, 1, "c", true, true, true⟩, ⟨"n", "p", 2, 1, "c", true, true, true⟩,
         ⟨"b", "p", 3, 1, "c", true, true, true⟩] := by
  constructor
  · have h := c9_insertSorted_spec
      [⟨"a", "p", 1, 1, "c", true, true, true⟩, ⟨"b", "p", 3, 1, "c", true, true, true⟩]
      ⟨"n", "p", 2, 1, "c", true, true, true⟩
      (fun a b => a.created_at - b.created_at)
      (by intro a b; dsimp only; omega)
      (by intro a b c; dsimp only; omega)
      (by simp)
    have hval : [(⟨"a", "p", 1, 1, "c", true, true, true⟩ : NEvent),
        ⟨"b", "p", 3, 1, "c", true, true, true⟩][insertPos
          [⟨"a", "p", 1, 1, "c", true, true, true⟩, ⟨"b", "p", 3, 1, "c", true, true, true⟩]
          ⟨"n", "p", 2, 1, "c", true, true, true⟩
          (fun a b => a.created_at - b.created_at)]?
        = some ⟨"b", "p", 3, 1, "c", true, true, true⟩ := by decide
    have h2 := (h.2.2.2 (by
      intro x hx
      rw [hval] at hx
      injection hx with hx2
      rw [← hx2]
      decide)).1
    rw [h2]
    decide
  · have h := c9_insertSorted_spec
      [⟨"n", "p", 1, 1, "c", true, true, true⟩, ⟨"b", "p", 3, 1, "c", true, true, true⟩]
      ⟨"n", "p", 2, 1, "c", true, true, true⟩
      (fun a b => a.created_at - b.created_at)
      (by intro a b; dsimp only; omega)
      (by intro a b c; dsimp only; omega)
      (by simp)
    have hval : [(⟨"n", "p", 1, 1, "c", true, true, true⟩ : NEvent),
        ⟨"b", "p", 3, 1, "c", true, true, true⟩][insertPos
          [⟨"n", "p", 1, 1, "c", true, true, true⟩, ⟨"b", "p", 3, 1, "c", true, true, true⟩]
          ⟨"n", "p", 2, 1, "c", true, true, true⟩
          (fun a b => a.created_at - b.created_at)]?
        = some ⟨"b", "p", 3, 1, "c", true, true, true⟩ := by decide
    have h2 := (h.2.2.2 (by
      intro x hx
      rw [hval] at hx
      injection hx with hx2
      rw [← hx2]
      decide)).1
    rw [h2]
    decide

end Nostr2Discord
